import Mathlib

/-!
Verification of the type-inference engine of the `firstlang` crate
(`src/firstlang/src/ast/typed.rs` and `src/firstlang/src/ast/type_inference.rs`).

The Rust code is embedded shallowly: the mutable receivers of the Rust
methods become explicit inputs and outputs, `anyhow::Result` becomes
`Except`, and each distinct `bail!` site becomes a distinct constructor of
an error type.  `HashMap<Identifier, Type>` is modelled as an association
list whose operations (`get`, `insert` returning the previous value,
`remove`) and whose equality test mirror the `HashMap` API extensionally.
-/

namespace FirstLang

/-- `ScalarKind` from `typed.rs`: `Int | Bool`. -/
inductive ScalarKind where
  | int
  | bool
deriving DecidableEq, Repr

/-- `ScalarKind::is_numeric` from `typed.rs`. -/
def ScalarKind.isNumeric : ScalarKind → Bool
  | .int => true
  | .bool => false

mutual
/-- `Type` from `typed.rs`: `Scalar(ScalarKind) | Function(Vec<Type>, Box<Type>) | Unit | Unknown`. -/
inductive Ty where
  | scalar (k : ScalarKind)
  | function (params : TyList) (ret : Ty)
  | unit
  | unknown
deriving DecidableEq, Repr
/-- The `Vec<Type>` of a `Type::Function`, as a mutually defined list so that
recursion over types stays structural. -/
inductive TyList where
  | nil
  | cons (head : Ty) (tail : TyList)
deriving DecidableEq, Repr
end

/-- Length of a `TyList` (`Vec::len`). -/
def TyList.length : TyList → Nat
  | .nil => 0
  | .cons _ t => 1 + t.length

/-- `vec![Type::Unknown; n]` from the `Function` rule of `infer_locally`. -/
def TyList.unknowns : Nat → TyList
  | 0 => .nil
  | n + 1 => .cons .unknown (TyList.unknowns n)

/-- One constructor per distinct `bail!` site of the pass-level code
(`PushType` impl and `infer_locally` / `infer_up`), carrying the data that
the Rust error message formats in. -/
inductive TypeError where
  | typeMismatchComplete (expected got : Ty)
  | typeMismatchPush (expected got : Ty)
  | undefinedIdentifier (name : String)
  | expectedNumericUnary
  | arityMismatch (name : String) (expected got : Nat)
  | argTypeMismatch (expected got : Ty)
  | notAFunction (name : String) (got : Ty)
  | lambdaNotFunction (got : Ty)
  | functionNotDefined (name : String)
deriving DecidableEq, Repr

/-- Errors observable from `infer_types_with_env`: either one of its own three
`bail!` messages or an error propagated from the upward-propagation pass. -/
inductive DriverError where
  | pass (e : TypeError)
  | couldNotInfer
  | inferenceLoop
  | maxIterations
deriving DecidableEq, Repr

mutual
/-- `PushType::push for Type` from `type_inference.rs` (receiver is the first
argument; the result is the updated receiver and the `changed` flag).  Note
the source has no `Unit`/`Unit` arm in its final `match`, so that pair falls
into the catch-all `bail!`. -/
def Ty.push (a b : Ty) : Except TypeError (Ty × Bool) :=
  if b = Ty.unknown then .ok (a, false)
  else if a = Ty.unknown then .ok (b, true)
  else match a, b with
    | .scalar k, .scalar j =>
      if k = j then .ok (.scalar k, false) else .error (.typeMismatchPush b a)
    | .function ps r, .function qs s =>
      if ps.length = qs.length then
        match Ty.pushPairs ps qs with
        | .error e => .error e
        | .ok (ps2, c1) =>
          match Ty.push r s with
          | .error e => .error e
          | .ok (r2, c2) => .ok (.function ps2 r2, c1 || c2)
      else .error (.typeMismatchPush b a)
    | a, b => .error (.typeMismatchPush b a)
/-- The `params.iter_mut().zip(other_params)` loop inside `push`, folding the
`changed |=` flag; like `zip` it stops at the shorter list. -/
def Ty.pushPairs (ps qs : TyList) : Except TypeError (TyList × Bool) :=
  match ps, qs with
  | .nil, _ => .ok (.nil, false)
  | l, .nil => .ok (l, false)
  | .cons x xs, .cons y ys =>
    match Ty.push x y with
    | .error e => .error e
    | .ok (x2, c1) =>
      match Ty.pushPairs xs ys with
      | .error e => .error e
      | .ok (xs2, c2) => .ok (.cons x2 xs2, c1 || c2)
end

/-- `PushType::sync` (the provided trait method): `Ok(self.push(other)? ||
other.push(self)?)` — the Rust `||` short-circuits, so the second push runs
only when the first one reported no change. -/
def Ty.sync (a b : Ty) : Except TypeError (Ty × Ty × Bool) :=
  match Ty.push a b with
  | .error e => .error e
  | .ok (a2, c1) =>
    if c1 then .ok (a2, b, true)
    else match Ty.push b a2 with
      | .error e => .error e
      | .ok (b2, c2) => .ok (a2, b2, c2)

/-- `PushType::push_complete for Type`.  The source matches on `other` with
guards in order (`Scalar`, `Function`, `Unit`, each first testing
`self == Unknown` and then `self == other`); an `Unknown` argument always
falls into the catch-all `bail!`. -/
def Ty.pushComplete (a b : Ty) : Except TypeError (Ty × Bool) :=
  match b with
  | .scalar _ =>
    if a = Ty.unknown then .ok (b, true)
    else if a = b then .ok (a, false)
    else .error (.typeMismatchComplete b a)
  | .function _ _ =>
    if a = Ty.unknown then .ok (b, true)
    else if a = b then .ok (a, false)
    else .error (.typeMismatchComplete b a)
  | .unit =>
    if a = Ty.unknown then .ok (b, true)
    else if a = b then .ok (a, false)
    else .error (.typeMismatchComplete b a)
  | .unknown => .error (.typeMismatchComplete b a)

/-- `UnaryOp` from `typed.rs`. -/
inductive UnaryOp where
  | plus
  | minus
deriving DecidableEq, Repr

/-- `BinaryOp` from `typed.rs`. -/
inductive BinaryOp where
  | add
  | sub
  | mul
  | lessThan
  | greaterThan
deriving DecidableEq, Repr

/-- `BinaryOp::is_comparison` from `typed.rs`. -/
def BinaryOp.isComparison : BinaryOp → Bool
  | .lessThan => true
  | .greaterThan => true
  | _ => false

/-- `LiteralKind` from `typed.rs`. -/
inductive Lit where
  | int (n : Int)
  | bool (b : Bool)
deriving DecidableEq, Repr

/-- `Parameter` from `typed.rs` (`Identifier` is its `name: String`). -/
structure Param where
  ident : String
  ty : Ty
deriving DecidableEq, Repr

mutual
/-- `Expr` from `typed.rs`: a kind together with a mutable type slot. -/
inductive Expr where
  | mk (kind : ExprKind) (ty : Ty)
deriving DecidableEq, Repr
/-- `ExprKind` from `typed.rs`, one constructor per variant. -/
inductive ExprKind where
  | identifier (name : String)
  | literal (lit : Lit)
  | unaryExpr (op : UnaryOp) (child : Expr)
  | binaryExpr (op : BinaryOp) (lhs rhs : Expr)
  | ret (value : Expr)
  | assignment (ident : String) (value : Expr)
  | conditional (cond onTrue onFalse : Expr)
  | loop (cond : Expr) (body : ExprList)
  | function (ident : String) (params : List Param) (body : ExprList)
  | call (ident : String) (args : ExprList)
  | block (exprs : ExprList)
deriving DecidableEq, Repr
/-- The `Vec<Expr>` / `Box<Vec<Expr>>` fields, as a mutually defined list so
that recursion over expressions stays structural. -/
inductive ExprList where
  | nil
  | cons (head : Expr) (tail : ExprList)
deriving DecidableEq, Repr
end

/-- The `kind` field of an `Expr`. -/
def Expr.kind : Expr → ExprKind
  | .mk k _ => k

/-- The `ty` field of an `Expr`. -/
def Expr.ty : Expr → Ty
  | .mk _ t => t

/-- `Vec::len` for `ExprList`. -/
def ExprList.length : ExprList → Nat
  | .nil => 0
  | .cons _ t => 1 + t.length

/-- Plain-list view of an `ExprList`. -/
def ExprList.toList : ExprList → List Expr
  | .nil => []
  | .cons e t => e :: t.toList

/-- `TypeMap = HashMap<Identifier, Type>`, modelled as an association list. -/
def TypeMap := List (String × Ty)
deriving DecidableEq, Repr

/-- `HashMap::get`. -/
def TypeMap.get : TypeMap → String → Option Ty
  | [], _ => none
  | (k, v) :: rest, name => if k = name then some v else TypeMap.get rest name

/-- `HashMap::insert`, returning the updated map and the previous value
(replacing in place so that the association list keeps one entry per key). -/
def TypeMap.insertRet : TypeMap → String → Ty → TypeMap × Option Ty
  | [], name, v => ([(name, v)], none)
  | (k, w) :: rest, name, v =>
    if k = name then ((k, v) :: rest, some w)
    else
      let (rest2, old) := TypeMap.insertRet rest name v
      ((k, w) :: rest2, old)

/-- `HashMap::insert` when the returned previous value is dropped. -/
def TypeMap.insert (m : TypeMap) (name : String) (v : Ty) : TypeMap :=
  (TypeMap.insertRet m name v).1

/-- `HashMap::remove` (the returned value is always dropped in the source). -/
def TypeMap.remove : TypeMap → String → TypeMap
  | [], _ => []
  | (k, v) :: rest, name =>
    if k = name then rest else (k, v) :: TypeMap.remove rest name

/-- `HashMap::contains_key`. -/
def TypeMap.contains (m : TypeMap) (name : String) : Bool :=
  (m.get name).isSome

/-- `HashMap::eq` (used by `Some(env.clone()) == previous_state`): equal
lengths and every key/value pair of the left map present in the right one. -/
def TypeMap.eqv (m other : TypeMap) : Bool :=
  m.length = other.length &&
    m.all fun kv =>
      match other.get kv.1 with
      | some v => kv.2 = v
      | none => false

/-- `Expr::children` from `typed.rs`, on an `ExprKind`.  Note the
`Conditional` arm returns the children *of* `cond`, `on_true` and `on_false`
rather than those three nodes themselves, and the `Loop` arm returns `cond`
followed by the body statements. -/
def childrenOfKind : ExprKind → List Expr
  | .identifier _ => []
  | .literal _ => []
  | .unaryExpr _ c => [c]
  | .binaryExpr _ l r => [l, r]
  | .ret v => [v]
  | .assignment _ v => [v]
  | .conditional (.mk ck _) (.mk tk _) (.mk fk _) =>
    childrenOfKind ck ++ childrenOfKind tk ++ childrenOfKind fk
  | .loop c body => c :: body.toList
  | .function _ _ body => body.toList
  | .call _ args => args.toList
  | .block exprs => exprs.toList

/-- `Expr::children` from `typed.rs`. -/
def Expr.children (e : Expr) : List Expr :=
  childrenOfKind e.kind

mutual
/-- `Expr::partially_typed` from `typed.rs`: the node's own `ty` is `Unknown`
at top level, or some node in its `children()` closure is partially typed
(`kindAnyPartTyped` computes `children().any(partially_typed)` structurally;
`partiallyTyped_eq` below proves the correspondence). -/
def partiallyTyped : Expr → Bool
  | .mk k ty =>
    match ty with
    | .unknown => true
    | _ => kindAnyPartTyped k
/-- `self.children().iter().any(|c| c.partially_typed())` for a node with the
given kind, computed by structural recursion. -/
def kindAnyPartTyped : ExprKind → Bool
  | .identifier _ => false
  | .literal _ => false
  | .unaryExpr _ c => partiallyTyped c
  | .binaryExpr _ l r => partiallyTyped l || partiallyTyped r
  | .ret v => partiallyTyped v
  | .assignment _ v => partiallyTyped v
  | .conditional (.mk ck _) (.mk tk _) (.mk fk _) =>
    kindAnyPartTyped ck || kindAnyPartTyped tk || kindAnyPartTyped fk
  | .loop c body => partiallyTyped c || anyPartTyped body
  | .function _ _ body => anyPartTyped body
  | .call _ args => anyPartTyped args
  | .block exprs => anyPartTyped exprs
/-- `any(partially_typed)` over an expression list. -/
def anyPartTyped : ExprList → Bool
  | .nil => false
  | .cons e rest => partiallyTyped e || anyPartTyped rest
end

/-- The `for (param_ty, param_expr) in param_types.iter_mut().zip(params.iter_mut())`
loop of the `Function` rule in `infer_locally`: syncs each slot with the
declared parameter's type, folding the `changed` flag; like `zip` it stops at
the shorter list. -/
def syncParams : TyList → List Param → Except TypeError (TyList × List Param × Bool)
  | .nil, ps => .ok (.nil, ps, false)
  | l, [] => .ok (l, [], false)
  | .cons t ts, p :: ps =>
    match Ty.sync t p.ty with
    | .error er => .error er
    | .ok (t2, pty2, c1) =>
      match syncParams ts ps with
      | .error er => .error er
      | .ok (ts2, ps2, c2) => .ok (.cons t2 ts2, { p with ty := pty2 } :: ps2, c1 || c2)

/-- The tail of the `Function` rule in `infer_locally`: if the body has a last
statement, `sync` the return slot with its type; otherwise the slot is
assigned `Box::new(Type::Unit)` outright (no error, no `changed` update). -/
def syncResLast : Ty → ExprList → Except TypeError (Ty × ExprList × Bool)
  | _, .nil => .ok (.unit, .nil, false)
  | r, .cons (.mk k ety) .nil =>
    match Ty.sync r ety with
    | .error er => .error er
    | .ok (r2, ety2, c) => .ok (r2, .cons (.mk k ety2) .nil, c)
  | r, .cons e (.cons e2 rest) =>
    match syncResLast r (.cons e2 rest) with
    | .error er => .error er
    | .ok (r2, rest2, c) => .ok (r2, .cons e rest2, c)

/-- The per-argument check of the `Call` rule: each argument's type must
already equal the declared parameter type exactly. -/
def checkArgs : ExprList → TyList → Except TypeError Unit
  | .nil, _ => .ok ()
  | _, .nil => .ok ()
  | .cons (.mk _ aty) rest, .cons p ps =>
    if aty = p then checkArgs rest ps else .error (.argTypeMismatch p aty)

/-- `exprs.last()` of the `Block` rule, returning its type. -/
def lastTy : ExprList → Option Ty
  | .nil => none
  | .cons (.mk _ ety) .nil => some ety
  | .cons _ (.cons e2 rest) => lastTy (.cons e2 rest)

mutual
/-- `InferTypesInternal::infer_locally` from `type_inference.rs`, one arm per
`ExprKind` variant, with the mutated `self` and `env` made explicit. -/
def inferLocally : Expr → TypeMap → Except TypeError (Expr × TypeMap × Bool)
  | .mk (.identifier name) ty, env =>
    match env.get name with
    | some t =>
      match Ty.push ty t with
      | .error er => .error er
      | .ok (ty2, c) => .ok (.mk (.identifier name) ty2, env, c)
    | none => .error (.undefinedIdentifier name)
  | .mk (.literal (.int n)) ty, env =>
    match Ty.pushComplete ty (.scalar .int) with
    | .error er => .error er
    | .ok (ty2, c) => .ok (.mk (.literal (.int n)) ty2, env, c)
  | .mk (.literal (.bool b)) ty, env =>
    match Ty.pushComplete ty (.scalar .bool) with
    | .error er => .error er
    | .ok (ty2, c) => .ok (.mk (.literal (.bool b)) ty2, env, c)
  | .mk (.unaryExpr op (.mk ck cty)) ty, env =>
    match cty with
    | .scalar k =>
      if k.isNumeric then
        match Ty.push ty cty with
        | .error er => .error er
        | .ok (ty2, c) => .ok (.mk (.unaryExpr op (.mk ck cty)) ty2, env, c)
      else .error .expectedNumericUnary
    | .unknown => .ok (.mk (.unaryExpr op (.mk ck cty)) ty, env, false)
    | _ => .error .expectedNumericUnary
  | .mk (.binaryExpr op (.mk lk lty) (.mk rk rty)) ty, env =>
    match Ty.push .unknown lty with
    | .error er => .error er
    | .ok (elem1, _) =>
      match Ty.push elem1 rty with
      | .error er => .error er
      | .ok (elem2, _) =>
        match (if op.isComparison then Except.ok (elem2, false) else Ty.push elem2 ty) with
        | .error er => .error er
        | .ok (elem3, _) =>
          match Ty.push lty elem3 with
          | .error er => .error er
          | .ok (lty2, c1) =>
            match Ty.push rty elem3 with
            | .error er => .error er
            | .ok (rty2, c2) =>
              match (if op.isComparison then Ty.pushComplete ty (.scalar .bool)
                     else Ty.push ty elem3) with
              | .error er => .error er
              | .ok (ty2, c3) =>
                .ok (.mk (.binaryExpr op (.mk lk lty2) (.mk rk rty2)) ty2, env,
                  c1 || c2 || c3)
  | .mk (.ret (.mk vk vty)) ty, env =>
    match Ty.push vty ty with
    | .error er => .error er
    | .ok (vty2, c1) =>
      match Ty.push ty vty2 with
      | .error er => .error er
      | .ok (ty2, c2) => .ok (.mk (.ret (.mk vk vty2)) ty2, env, c1 || c2)
  | .mk (.assignment ident (.mk vk vty)) ty, env =>
    match env.get ident with
    | some existing =>
      match Ty.sync existing vty with
      | .error er => .error er
      | .ok (ex2, vty1, c1) =>
        match Ty.sync ty vty1 with
        | .error er => .error er
        | .ok (ty2, vty2, c2) =>
          .ok (.mk (.assignment ident (.mk vk vty2)) ty2, env.insert ident ex2, c1 || c2)
    | none =>
      match Ty.sync ty vty with
      | .error er => .error er
      | .ok (ty2, vty2, _) =>
        .ok (.mk (.assignment ident (.mk vk vty2)) ty2, env.insert ident vty, true)
  | .mk (.conditional (.mk ck cty) (.mk tk tty) (.mk fk fty)) ty, env =>
    match Ty.pushComplete cty (.scalar .bool) with
    | .error er => .error er
    | .ok (cty2, c1) =>
      match Ty.sync ty tty with
      | .error er => .error er
      | .ok (ty1, tty2, c2) =>
        match Ty.sync ty1 fty with
        | .error er => .error er
        | .ok (ty2, fty2, c3) =>
          .ok (.mk (.conditional (.mk ck cty2) (.mk tk tty2) (.mk fk fty2)) ty2, env,
            c1 || c2 || c3)
  | .mk (.loop c body) ty, env =>
    match Ty.pushComplete ty .unit with
    | .error er => .error er
    | .ok (ty2, ch) => .ok (.mk (.loop c body) ty2, env, ch)
  | .mk (.function ident params body) ty, env =>
    match Ty.push ty (.function (TyList.unknowns params.length) .unknown) with
    | .error er => .error er
    | .ok (ty1, c1) =>
      match ty1 with
      | .function paramTypes resType =>
        match syncParams paramTypes params with
        | .error er => .error er
        | .ok (paramTypes2, params2, c2) =>
          match inferLocallyList body env with
          | .error er => .error er
          | .ok (body2, env2, c3) =>
            match syncResLast resType body2 with
            | .error er => .error er
            | .ok (resType2, body3, c4) =>
              .ok (.mk (.function ident params2 body3) (.function paramTypes2 resType2),
                env2, c1 || c2 || c3 || c4)
      | other => .error (.lambdaNotFunction other)
  | .mk (.call ident args) _ty, env =>
    match inferLocallyList args env with
    | .error er => .error er
    | .ok (args2, env2, _) =>
      match env2.get ident with
      | some (.function paramTypes returnType) =>
        if paramTypes.length = args2.length then
          match checkArgs args2 paramTypes with
          | .error er => .error er
          | .ok _ => .ok (.mk (.call ident args2) returnType, env2, true)
        else .error (.arityMismatch ident paramTypes.length args2.length)
      | some other => .error (.notAFunction ident other)
      | none => .error (.functionNotDefined ident)
  | .mk (.block exprs) ty, env =>
    match inferLocallyList exprs env with
    | .error er => .error er
    | .ok (exprs2, env2, c1) =>
      match lastTy exprs2 with
      | some lt =>
        match Ty.push ty lt with
        | .error er => .error er
        | .ok (ty2, c2) => .ok (.mk (.block exprs2) ty2, env2, c1 || c2)
      | none =>
        match Ty.pushComplete ty .unit with
        | .error er => .error er
        | .ok (ty2, _) => .ok (.mk (.block exprs2) ty2, env2, c1)
/-- `for expr in ... { changed |= expr.infer_locally(env)?; }` over a list of
statements, threading the environment. -/
def inferLocallyList : ExprList → TypeMap → Except TypeError (ExprList × TypeMap × Bool)
  | .nil, env => .ok (.nil, env, false)
  | .cons e rest, env =>
    match inferLocally e env with
    | .error er => .error er
    | .ok (e2, env2, c1) =>
      match inferLocallyList rest env2 with
      | .error er => .error er
      | .ok (rest2, env3, c2) => .ok (.cons e2 rest2, env3, c1 || c2)
end

/-- The pre-dispatch parameter-binding loop of `infer_up`: each parameter is
bound in the environment to its current type, and `(ident, previous binding)`
records are accumulated in iteration order. -/
def bindParams : TypeMap → List Param → TypeMap × List (String × Option Ty)
  | env, [] => (env, [])
  | env, p :: ps =>
    let (env1, old) := TypeMap.insertRet env p.ident p.ty
    let (env2, rest) := bindParams env1 ps
    (env2, (p.ident, old) :: rest)

/-- The `// Undo symbol bindings.` loop at the end of `infer_up`: the records
are replayed in the order they were pushed (`Some old` re-inserts, `None`
removes). -/
def restoreBindings : TypeMap → List (String × Option Ty) → TypeMap
  | env, [] => env
  | env, (name, some old) :: rest => restoreBindings (env.insert name old) rest
  | env, (name, none) :: rest => restoreBindings (env.remove name) rest

/-- The common tail of `infer_up`: undo the recorded bindings, then run
`infer_locally` on the node and fold its flag into `changed`. -/
def inferUpFinish (e : Expr) (env : TypeMap) (ob : List (String × Option Ty))
    (changed : Bool) : Except TypeError (Expr × TypeMap × Bool) :=
  match inferLocally e (restoreBindings env ob) with
  | .error er => .error er
  | .ok (e2, env2, c2) => .ok (e2, env2, changed || c2)

mutual
/-- `InferTypesInternal::infer_up` from `type_inference.rs`.  For a `Function`
node the parameters are bound twice — once by the pre-dispatch loop and once
again inside the `Function` match arm — and both sets of records are replayed
in order by the restore loop. -/
def inferUp : Expr → TypeMap → Except TypeError (Expr × TypeMap × Bool)
  | .mk (.identifier name) ty, env => inferUpFinish (.mk (.identifier name) ty) env [] false
  | .mk (.literal l) ty, env => inferUpFinish (.mk (.literal l) ty) env [] false
  | .mk (.unaryExpr op child) ty, env =>
    match inferUp child env with
    | .error er => .error er
    | .ok (child2, env2, c) => inferUpFinish (.mk (.unaryExpr op child2) ty) env2 [] c
  | .mk (.binaryExpr op lhs rhs) ty, env =>
    match inferUp lhs env with
    | .error er => .error er
    | .ok (lhs2, env2, c1) =>
      match inferUp rhs env2 with
      | .error er => .error er
      | .ok (rhs2, env3, c2) =>
        inferUpFinish (.mk (.binaryExpr op lhs2 rhs2) ty) env3 [] (c1 || c2)
  | .mk (.ret value) ty, env =>
    match inferUp value env with
    | .error er => .error er
    | .ok (value2, env2, c) => inferUpFinish (.mk (.ret value2) ty) env2 [] c
  | .mk (.assignment ident value) ty, env =>
    match inferUp value env with
    | .error er => .error er
    | .ok (.mk vk2 vty1, env2, c1) =>
      let env3 := if env2.contains ident then env2 else env2.insert ident vty1
      match Ty.sync ty vty1 with
      | .error er => .error er
      | .ok (ty2, vty2, c2) =>
        inferUpFinish (.mk (.assignment ident (.mk vk2 vty2)) ty2) env3 [] (c1 || c2)
  | .mk (.function ident params body) ty, env =>
    let (env1, ob1) := bindParams env params
    let env2 := env1.insert ident ty
    let (env3, ob2) := bindParams env2 params
    match inferUpList body env3 with
    | .error er => .error er
    | .ok (body2, env4, c) =>
      inferUpFinish (.mk (.function ident params body2) ty) env4 (ob1 ++ ob2) c
  | .mk (.block exprs) ty, env =>
    match inferUpList exprs env with
    | .error er => .error er
    | .ok (exprs2, env2, c) => inferUpFinish (.mk (.block exprs2) ty) env2 [] c
  | .mk (.loop c body) ty, env => inferUpFinish (.mk (.loop c body) ty) env [] false
  | .mk (.conditional cond onTrue onFalse) ty, env =>
    match inferUp cond env with
    | .error er => .error er
    | .ok (cond2, env2, c1) =>
      match inferUp onTrue env2 with
      | .error er => .error er
      | .ok (onTrue2, env3, c2) =>
        match inferUp onFalse env3 with
        | .error er => .error er
        | .ok (onFalse2, env4, c3) =>
          inferUpFinish (.mk (.conditional cond2 onTrue2 onFalse2) ty) env4 []
            (c1 || c2 || c3)
  | .mk (.call ident args) ty, env =>
    match inferUpList args env with
    | .error er => .error er
    | .ok (args2, env2, c1) =>
      match env2.get ident with
      | some t =>
        match Ty.push ty t with
        | .error er => .error er
        | .ok (ty2, c2) => inferUpFinish (.mk (.call ident args2) ty2) env2 [] (c1 || c2)
      | none => .error (.functionNotDefined ident)
/-- `changed |= expr.infer_up(env)?` over a list of statements. -/
def inferUpList : ExprList → TypeMap → Except TypeError (ExprList × TypeMap × Bool)
  | .nil, env => .ok (.nil, env, false)
  | .cons e rest, env =>
    match inferUp e env with
    | .error er => .error er
    | .ok (e2, env2, c1) =>
      match inferUpList rest env2 with
      | .error er => .error er
      | .ok (rest2, env3, c2) => .ok (.cons e2 rest2, env3, c1 || c2)
end

/-- The loop body of `infer_types_with_env`, with the remaining iteration
budget as explicit fuel (the source runs `for _ in 0..1024`) and
`previous_state` as the last argument. -/
def fixLoop : Nat → Expr → TypeMap → Option TypeMap → Except DriverError (Expr × TypeMap)
  | 0, _, _, _ => .error .maxIterations
  | fuel + 1, e, env, prev =>
    match inferUp e env with
    | .error er => .error (.pass er)
    | .ok (e2, env2, changed) =>
      if changed then
        match prev with
        | some p =>
          if TypeMap.eqv env2 p then .error .inferenceLoop
          else fixLoop fuel e2 env2 (some env2)
        | none => fixLoop fuel e2 env2 (some env2)
      else if partiallyTyped e2 then .error .couldNotInfer
      else .ok (e2, env2)

/-- `InferTypesInternal::infer_types_with_env`: up to 1024 upward-propagation
passes with environment-snapshot cycle detection. -/
def inferTypesWithEnv (e : Expr) (env : TypeMap) : Except DriverError (Expr × TypeMap) :=
  fixLoop 1024 e env none

/-- The sequence of pass-start states `(tree, environment)` of the
upward-propagation passes that `fixLoop` actually executes on a given input,
mirroring `fixLoop`'s control flow step for step: the current state is
recorded, and further states follow exactly when the pass succeeds with a
change and no environment-snapshot repeat stops the loop.  Used to scope
"every pass of this run" hypotheses to the run itself. -/
def runStates : Nat → Expr → TypeMap → Option TypeMap → List (Expr × TypeMap)
  | 0, _, _, _ => []
  | fuel + 1, e, env, prev =>
    (e, env) ::
      (match inferUp e env with
       | .error _ => []
       | .ok (e2, env2, changed) =>
         if changed then
           match prev with
           | some p => if TypeMap.eqv env2 p then [] else runStates fuel e2 env2 (some env2)
           | none => runStates fuel e2 env2 (some env2)
         else [])

/-- The seeding loop of the free function `infer_types`: every top-level
`Function` node's current type is inserted into the global environment under
its name. -/
def seedEnv (exprs : List Expr) : TypeMap :=
  exprs.foldl
    (fun env e =>
      match e with
      | .mk (.function ident _ _) ty => env.insert ident ty
      | _ => env)
    []

/-- The per-expression loop of `infer_types`: each top-level expression is
inferred against its own copy of the given global environment. -/
def inferAll (g : TypeMap) : List Expr → Except DriverError (List Expr)
  | [] => .ok []
  | e :: rest =>
    match inferTypesWithEnv e g with
    | .error er => .error er
    | .ok (e2, _) =>
      match inferAll g rest with
      | .error er => .error er
      | .ok rest2 => .ok (e2 :: rest2)

/-- The free function `infer_types` from `type_inference.rs` (the program
driver). -/
def inferTypes (exprs : List Expr) : Except DriverError (List Expr) :=
  inferAll (seedEnv exprs) exprs

mutual
/-- The refinement order on types: `leTy a b` holds when `b` agrees with `a`
at every position where `a` is not `Unknown` (so every resolved component of
`a` is still present, unchanged, in `b`). -/
def leTy : Ty → Ty → Bool
  | .unknown, _ => true
  | .scalar k, .scalar j => k = j
  | .unit, .unit => true
  | .function ps r, .function qs s => leTyList ps qs && leTy r s
  | _, _ => false
/-- Pointwise `leTy` on parameter lists of equal length. -/
def leTyList : TyList → TyList → Bool
  | .nil, .nil => true
  | .cons x xs, .cons y ys => leTy x y && leTyList xs ys
  | _, _ => false
end

mutual
/-- Modelled from the spec: a Type is *resolved* iff no `Unknown` occurs
anywhere inside it, recursively.  Used only to state claims about resolved
types; the source has no such function. -/
def fullyResolved : Ty → Bool
  | .unknown => false
  | .scalar _ => true
  | .unit => true
  | .function ps r => fullyResolvedList ps && fullyResolved r
/-- `fullyResolved` on every element of a parameter list. -/
def fullyResolvedList : TyList → Bool
  | .nil => true
  | .cons x xs => fullyResolved x && fullyResolvedList xs
end

mutual
/-- `leTy` is reflexive. -/
theorem leTy_refl (a : Ty) : leTy a a = true := by
  cases a with
  | scalar k => simp [leTy]
  | function ps r => simp [leTy, leTyList_refl ps, leTy_refl r]
  | unit => simp [leTy]
  | unknown => simp [leTy]
/-- `leTyList` is reflexive. -/
theorem leTyList_refl (l : TyList) : leTyList l l = true := by
  cases l with
  | nil => simp [leTyList]
  | cons x xs => simp [leTyList, leTy_refl x, leTyList_refl xs]
end

mutual
/-- A successful `push` only refines its receiver: the result is above the
old receiver in the refinement order. -/
theorem push_le (a b a2 : Ty) (c : Bool) (h : Ty.push a b = Except.ok (a2, c)) :
    leTy a a2 = true := by
  cases hb : b with
  | unknown =>
    rw [hb] at h
    simp [Ty.push] at h
    exact h.1 ▸ leTy_refl a
  | scalar j =>
    rw [hb] at h
    cases a with
    | unknown => simp [leTy]
    | scalar k =>
      simp [Ty.push] at h
      split at h
      · simp at h
        rw [← h.1]
        exact leTy_refl _
      · exact absurd h (by simp)
    | unit => simp [Ty.push] at h
    | function ps r => simp [Ty.push] at h
  | unit =>
    rw [hb] at h
    cases a with
    | unknown => simp [leTy]
    | scalar k => simp [Ty.push] at h
    | unit => simp [Ty.push] at h
    | function ps r => simp [Ty.push] at h
  | function qs s =>
    rw [hb] at h
    cases a with
    | unknown => simp [leTy]
    | scalar k => simp [Ty.push] at h
    | unit => simp [Ty.push] at h
    | function ps r =>
      simp [Ty.push] at h
      split at h
      case isTrue hlen =>
        rcases hpp : Ty.pushPairs ps qs with er | ⟨ps2, c1⟩ <;> rw [hpp] at h
        · exact absurd h (by simp)
        · rcases hpr : Ty.push r s with er | ⟨r2, c2⟩ <;> rw [hpr] at h
          · exact absurd h (by simp)
          · simp at h
            rw [← h.1]
            simp [leTy, pushPairs_le ps qs ps2 c1 hpp, push_le r s r2 c2 hpr]
      case isFalse => exact absurd h (by simp)
/-- A successful `pushPairs` only refines its receiver list. -/
theorem pushPairs_le (ps qs ps2 : TyList) (c : Bool)
    (h : Ty.pushPairs ps qs = Except.ok (ps2, c)) : leTyList ps ps2 = true := by
  cases ps with
  | nil =>
    cases qs <;> simp [Ty.pushPairs] at h <;> rw [← h.1] <;> simp [leTyList]
  | cons x xs =>
    cases qs with
    | nil =>
      simp [Ty.pushPairs] at h
      rw [← h.1]
      exact leTyList_refl _
    | cons y ys =>
      simp [Ty.pushPairs] at h
      rcases hx : Ty.push x y with er | ⟨x2, c1⟩ <;> rw [hx] at h
      · exact absurd h (by simp)
      · rcases hxs : Ty.pushPairs xs ys with er | ⟨xs2, c2⟩ <;> rw [hxs] at h
        · exact absurd h (by simp)
        · simp at h
          rw [← h.1]
          simp [leTyList, push_le x y x2 c1 hx, pushPairs_le xs ys xs2 c2 hxs]
end

/-- A successful `push_complete` only refines its receiver. -/
theorem pushComplete_le (a b a2 : Ty) (c : Bool)
    (h : Ty.pushComplete a b = Except.ok (a2, c)) : leTy a a2 = true := by
  cases b with
  | unknown => simp [Ty.pushComplete] at h
  | scalar j =>
    simp [Ty.pushComplete] at h
    split at h
    · rename_i ha; subst ha; simp [leTy]
    · split at h
      · simp at h
        rw [← h.1]
        exact leTy_refl _
      · exact absurd h (by simp)
  | unit =>
    simp [Ty.pushComplete] at h
    split at h
    · rename_i ha; subst ha; simp [leTy]
    · split at h
      · simp at h
        rw [← h.1]
        exact leTy_refl _
      · exact absurd h (by simp)
  | function qs s =>
    simp [Ty.pushComplete] at h
    split at h
    · rename_i ha; subst ha; simp [leTy]
    · split at h
      · simp at h
        rw [← h.1]
        exact leTy_refl _
      · exact absurd h (by simp)

/-- A successful `sync` only refines both of its arguments. -/
theorem sync_le (a b a2 b2 : Ty) (c : Bool)
    (h : Ty.sync a b = Except.ok (a2, b2, c)) :
    leTy a a2 = true ∧ leTy b b2 = true := by
  unfold Ty.sync at h
  rcases h1 : Ty.push a b with er | ⟨a3, c1⟩ <;> rw [h1] at h
  · exact absurd h (by simp)
  · cases c1 with
    | true =>
      simp at h
      exact ⟨h.1 ▸ push_le a b a3 true h1, h.2.1 ▸ leTy_refl b⟩
    | false =>
      simp at h
      rcases h2 : Ty.push b a3 with er | ⟨b3, c2⟩ <;> rw [h2] at h
      · exact absurd h (by simp)
      · simp at h
        exact ⟨h.1 ▸ push_le a b a3 false h1, h.2.1 ▸ push_le b a3 b3 c2 h2⟩

mutual
/-- `kindAnyPartTyped` computes exactly `children().any(partially_typed)`. -/
theorem kindAnyPartTyped_eq (k : ExprKind) :
    kindAnyPartTyped k = (childrenOfKind k).any partiallyTyped := by
  cases k with
  | identifier n => simp [kindAnyPartTyped, childrenOfKind]
  | literal l => simp [kindAnyPartTyped, childrenOfKind]
  | unaryExpr op c => simp [kindAnyPartTyped, childrenOfKind]
  | binaryExpr op l r => simp [kindAnyPartTyped, childrenOfKind]
  | ret v => simp [kindAnyPartTyped, childrenOfKind]
  | assignment i v => simp [kindAnyPartTyped, childrenOfKind]
  | conditional c t f =>
    cases c with
    | mk ck cty =>
      cases t with
      | mk tk tty =>
        cases f with
        | mk fk fty =>
          simp [kindAnyPartTyped, childrenOfKind, List.any_append,
            kindAnyPartTyped_eq ck, kindAnyPartTyped_eq tk, kindAnyPartTyped_eq fk,
            Bool.or_assoc]
  | loop c body => simp [kindAnyPartTyped, childrenOfKind, anyPartTyped_eq body]
  | function i ps body => simp [kindAnyPartTyped, childrenOfKind, anyPartTyped_eq body]
  | call i args => simp [kindAnyPartTyped, childrenOfKind, anyPartTyped_eq args]
  | block exprs => simp [kindAnyPartTyped, childrenOfKind, anyPartTyped_eq exprs]
/-- `anyPartTyped` computes `any(partially_typed)` over the list view. -/
theorem anyPartTyped_eq (l : ExprList) :
    anyPartTyped l = (ExprList.toList l).any partiallyTyped := by
  cases l with
  | nil => simp [anyPartTyped, ExprList.toList]
  | cons e rest => simp [anyPartTyped, ExprList.toList, anyPartTyped_eq rest]
end

/-- `partiallyTyped` computes exactly the source's `partially_typed`: the
node's own `ty` is `Unknown`, or some member of `children()` is partially
typed. -/
theorem partiallyTyped_eq (e : Expr) :
    partiallyTyped e =
      (decide (e.ty = Ty.unknown) || (Expr.children e).any partiallyTyped) := by
  cases e with
  | mk k ty =>
    cases ty <;>
      simp [partiallyTyped, Expr.children, Expr.ty, Expr.kind, kindAnyPartTyped_eq]

/-- Outcome characterization of the fixpoint loop, under the loop invariant
that `previous_state` is absent or equal to the current environment: the
result is a no-change success on a not-partially-typed tree, a no-change
*could-not-infer* failure, an environment-snapshot *inference-loop* failure,
the iteration-ceiling failure, or an error propagated from some
upward-propagation pass. -/
theorem fixLoop_char (fuel : Nat) (e : Expr) (env : TypeMap) (prev : Option TypeMap)
    (hprev : prev = none ∨ prev = some env) :
    (∃ e0 env0 e1 env1, inferUp e0 env0 = .ok (e1, env1, false) ∧
        partiallyTyped e1 = false ∧ fixLoop fuel e env prev = .ok (e1, env1)) ∨
    (∃ e0 env0 e1 env1, inferUp e0 env0 = .ok (e1, env1, false) ∧
        partiallyTyped e1 = true ∧ fixLoop fuel e env prev = .error .couldNotInfer) ∨
    (∃ e0 env0 e1 env1, inferUp e0 env0 = .ok (e1, env1, true) ∧
        TypeMap.eqv env1 env0 = true ∧ fixLoop fuel e env prev = .error .inferenceLoop) ∨
    (fixLoop fuel e env prev = .error .maxIterations) ∨
    (∃ e0 env0 er, inferUp e0 env0 = .error er ∧
        fixLoop fuel e env prev = .error (.pass er)) := by
  induction fuel generalizing e env prev with
  | zero =>
    right; right; right; left
    rfl
  | succ n ih =>
    rcases hup : inferUp e env with er | ⟨e1, env1, ch⟩
    · right; right; right; right
      exact ⟨e, env, er, hup, by simp [fixLoop, hup]⟩
    · cases ch with
      | false =>
        by_cases hpt : partiallyTyped e1 = true
        · right; left
          exact ⟨e, env, e1, env1, hup, hpt, by simp [fixLoop, hup, hpt]⟩
        · left
          refine ⟨e, env, e1, env1, hup, by simpa using hpt, ?_⟩
          simp [fixLoop, hup]
          simpa using hpt
      | true =>
        rcases hprev with rfl | rfl
        · have heq : fixLoop (n + 1) e env none = fixLoop n e1 env1 (some env1) := by
            simp [fixLoop, hup]
          rw [heq]
          exact ih e1 env1 (some env1) (Or.inr rfl)
        · by_cases hl : TypeMap.eqv env1 env = true
          · right; right; left
            exact ⟨e, env, e1, env1, hup, hl, by simp [fixLoop, hup, hl]⟩
          · have heq : fixLoop (n + 1) e env (some env) = fixLoop n e1 env1 (some env1) := by
              simp [fixLoop, hup, hl]
            rw [heq]
            exact ih e1 env1 (some env1) (Or.inr rfl)

/-- A successful run of the fixpoint driver returns a tree that is not
partially typed. -/
theorem inferTypesWithEnv_not_partial (e e2 : Expr) (env env2 : TypeMap)
    (h : inferTypesWithEnv e env = .ok (e2, env2)) : partiallyTyped e2 = false := by
  rcases fixLoop_char 1024 e env none (Or.inl rfl) with
    ⟨e0, env0, e1, env1, _, hpt, hres⟩ | ⟨e0, env0, e1, env1, _, _, hres⟩ |
    ⟨e0, env0, e1, env1, _, _, hres⟩ | hres | ⟨e0, env0, er, _, hres⟩ <;>
    rw [inferTypesWithEnv] at h <;> rw [hres] at h
  · cases h
    exact hpt
  all_goals cases h

/-- Every tree in a successful `inferAll` run is not partially typed. -/
theorem inferAll_not_partial (g : TypeMap) (l out : List Expr)
    (h : inferAll g l = .ok out) : ∀ e1 ∈ out, partiallyTyped e1 = false := by
  induction l generalizing out with
  | nil =>
    simp [inferAll] at h
    subst h
    intro e1 he1
    cases he1
  | cons e rest ih =>
    rw [inferAll] at h
    rcases h1 : inferTypesWithEnv e g with er | ⟨e2, env2⟩ <;> rw [h1] at h
    · cases h
    · rcases h2 : inferAll g rest with er | rest2 <;> rw [h2] at h
      · cases h
      · cases h
        intro e1 he1
        rcases List.mem_cons.mp he1 with rfl | hmem
        · exact inferTypesWithEnv_not_partial e e1 g env2 h1
        · exact ih rest2 h2 e1 hmem

/-- `inferAll` with a fixed global environment is `mapM` of the per-expression
fixpoint driver: the environment given to each top-level expression does not
depend on the inference of any other one. -/
theorem inferAll_eq_mapM (g : TypeMap) (l : List Expr) :
    inferAll g l = l.mapM (fun e => (inferTypesWithEnv e g).map Prod.fst) := by
  induction l with
  | nil => rfl
  | cons e rest ih =>
    rw [inferAll, ih, List.mapM_cons]
    rcases h1 : inferTypesWithEnv e g with er | ⟨e2, env2⟩
    · rfl
    · generalize mapM (fun e => Except.map Prod.fst (inferTypesWithEnv e g)) rest = R
      rcases R with er | v <;> rfl

/-- C1 (counterexample): `infer_types` succeeds on the single-expression
program `Function f(x: Unknown) {}` (node type `Unknown`), yet the returned
tree's root type `Function([Unknown], Unit)` still contains `Unknown` inside
its parameter slot — it is not fully resolved. -/
theorem c1_counterexample :
    inferTypes [.mk (.function "f" [⟨"x", Ty.unknown⟩] .nil) Ty.unknown] =
      .ok [.mk (.function "f" [⟨"x", Ty.unknown⟩] .nil)
        (.function (.cons Ty.unknown .nil) .unit)] ∧
    fullyResolved (Ty.function (.cons Ty.unknown .nil) .unit) = false :=
  ⟨rfl, rfl⟩

/-- C1 (amended): when `infer_types` succeeds, every returned tree is not
`partially_typed` — no node reachable through the `children()` relation has a
top-level `Unknown` type.  (`Unknown` may still survive nested inside a
`Function` type, and a `Conditional`'s direct condition/arm nodes are not
reached by `children()`.) -/
theorem c1_success_not_partially_typed (exprs out : List Expr)
    (h : inferTypes exprs = .ok out) : ∀ e1 ∈ out, partiallyTyped e1 = false :=
  inferAll_not_partial (seedEnv exprs) exprs out h

/-- C1 (witness): inferring the literal `1` succeeds, and the amended theorem
yields that the result is not partially typed. -/
theorem c1_witness :
    inferTypes [Expr.mk (.literal (.int 1)) (Ty.scalar .int)] =
      .ok [Expr.mk (.literal (.int 1)) (Ty.scalar .int)] ∧
    partiallyTyped (Expr.mk (.literal (.int 1)) (Ty.scalar .int)) = false :=
  ⟨rfl,
   c1_success_not_partially_typed [Expr.mk (.literal (.int 1)) (Ty.scalar .int)]
     [Expr.mk (.literal (.int 1)) (Ty.scalar .int)] rfl
     (Expr.mk (.literal (.int 1)) (Ty.scalar .int)) (by simp)⟩

/-- C2: on the unifiable pair `a = Function([Unknown], Int)`,
`b = Function([Bool], Unknown)`, `sync(a, b)` succeeds with `changed = true`
but leaves `a = Function([Bool], Int)` different from the untouched
`b = Function([Bool], Unknown)`: the Rust `||` short-circuits after the first
push reports a change, so the second push never runs and `a == b` fails. -/
theorem c2_sync_skips_second_push :
    Ty.sync (.function (.cons .unknown .nil) (.scalar .int))
        (.function (.cons (.scalar .bool) .nil) .unknown) =
      .ok (.function (.cons (.scalar .bool) .nil) (.scalar .int),
        .function (.cons (.scalar .bool) .nil) .unknown, true) ∧
    Ty.function (.cons (.scalar .bool) .nil) (.scalar .int) ≠
      Ty.function (.cons (.scalar .bool) .nil) .unknown :=
  ⟨rfl, by decide⟩

/-- C3: pushing the resolved type `Unit` into an `Unknown` receiver succeeds
with `changed = true` as claimed, but the second identical push —
`Unit.push(Unit)` — errors with a type mismatch instead of succeeding
unchanged, because `push`'s final `match` has no `Unit`/`Unit` arm. -/
theorem c3_push_unit_into_unit_errors :
    Ty.push Ty.unknown Ty.unit = .ok (Ty.unit, true) ∧
    Ty.push Ty.unit Ty.unit = .error (.typeMismatchPush Ty.unit Ty.unit) ∧
    fullyResolved Ty.unit = true :=
  ⟨rfl, rfl, rfl⟩

/-- C4 (counterexample): `push_complete` on a receiver equal to its argument
is claimed to succeed for every type including `Unknown`, but
`Unknown.push_complete(Unknown)` errors: no match arm of `push_complete`
covers an `Unknown` argument. -/
theorem c4_counterexample :
    Ty.pushComplete Ty.unknown Ty.unknown =
      .error (.typeMismatchComplete Ty.unknown Ty.unknown) := rfl

/-- C4 (amended): for every argument other than `Unknown`, `push_complete` on
a receiver already equal to the argument succeeds unchanged, and on an
`Unknown` receiver assigns the argument with `changed = true`; in every other
case — including every call whose argument is `Unknown`, even with an
`Unknown` receiver — it errors. -/
theorem c4_push_complete_cases (s o : Ty) :
    (o ≠ Ty.unknown → s = o → Ty.pushComplete s o = .ok (s, false)) ∧
    (o ≠ Ty.unknown → s = Ty.unknown → Ty.pushComplete s o = .ok (o, true)) ∧
    (s ≠ o → s ≠ Ty.unknown → Ty.pushComplete s o = .error (.typeMismatchComplete o s)) ∧
    Ty.pushComplete s Ty.unknown = .error (.typeMismatchComplete Ty.unknown s) := by
  refine ⟨fun ho hs => ?_, fun ho hs => ?_, fun hne hs => ?_, ?_⟩
  · subst hs
    cases s <;> simp_all [Ty.pushComplete]
  · subst hs
    cases o <;> simp_all [Ty.pushComplete]
  · cases o <;> simp_all [Ty.pushComplete]
  · rfl

/-- C4 (witness): the amended theorem applied at `Int.push_complete(Int)`
(no-op success) and `Unknown.push_complete(Bool)` (assignment). -/
theorem c4_witness :
    Ty.pushComplete (Ty.scalar .int) (Ty.scalar .int) = .ok (Ty.scalar .int, false) ∧
    Ty.pushComplete Ty.unknown (Ty.scalar .bool) = .ok (Ty.scalar .bool, true) :=
  ⟨(c4_push_complete_cases (Ty.scalar .int) (Ty.scalar .int)).1 (by decide) rfl,
   (c4_push_complete_cases Ty.unknown (Ty.scalar .bool)).2.1 (by decide) rfl⟩

/-- C5: `infer_up` on `Function f(x: Int) {}` in the empty environment
returns normally, yet `x` — a parameter with no prior binding — remains
bound to `Int` afterwards: the parameters are bound twice (pre-dispatch and
in the `Function` arm) and the restore loop replays the records in insertion
order, so the second record re-inserts the parameter binding after the first
one removed it.  In an environment where `x` was previously bound to `Unit`,
the shadowed binding is likewise clobbered to `Int` instead of restored. -/
theorem c5_param_binding_leaks :
    inferUp (.mk (.function "f" [⟨"x", Ty.scalar .int⟩] .nil)
        (.function (.cons (.scalar .int) .nil) .unit)) [] =
      .ok (.mk (.function "f" [⟨"x", Ty.scalar .int⟩] .nil)
        (.function (.cons (.scalar .int) .nil) .unit),
        [("f", Ty.function (.cons (.scalar .int) .nil) .unit), ("x", Ty.scalar .int)],
        false) ∧
    TypeMap.get [("f", Ty.function (.cons (.scalar .int) .nil) .unit),
        ("x", Ty.scalar .int)] "x" = some (Ty.scalar .int) ∧
    TypeMap.get ([] : TypeMap) "x" = none ∧
    inferUp (.mk (.function "f" [⟨"x", Ty.scalar .int⟩] .nil)
        (.function (.cons (.scalar .int) .nil) .unit)) [("x", Ty.unit)] =
      .ok (.mk (.function "f" [⟨"x", Ty.scalar .int⟩] .nil)
        (.function (.cons (.scalar .int) .nil) .unit),
        [("x", Ty.scalar .int), ("f", Ty.function (.cons (.scalar .int) .nil) .unit)],
        false) :=
  ⟨rfl, rfl, rfl, rfl⟩

/-- C6 (counterexample): on the tree `1 + true` the fixpoint driver
terminates with an error propagated from the upward-propagation pass (a
push type mismatch), which is none of the four claimed outcomes (success,
could-not-infer, inference-loop-detected, non-convergence). -/
theorem c6_counterexample :
    inferTypesWithEnv (.mk (.binaryExpr .add (.mk (.literal (.int 1)) (.scalar .int))
        (.mk (.literal (.bool true)) (.scalar .bool))) .unknown) [] =
      .error (.pass (.typeMismatchPush (.scalar .bool) (.scalar .int))) ∧
    DriverError.pass (.typeMismatchPush (.scalar .bool) (.scalar .int)) ≠
      DriverError.couldNotInfer ∧
    DriverError.pass (.typeMismatchPush (.scalar .bool) (.scalar .int)) ≠
      DriverError.inferenceLoop ∧
    DriverError.pass (.typeMismatchPush (.scalar .bool) (.scalar .int)) ≠
      DriverError.maxIterations :=
  ⟨rfl, by decide, by decide, by decide⟩

/-- C6 (amended): the fixpoint driver (at most 1024 passes, by its fuel)
always terminates with one of five outcomes: success after a no-change pass
whose tree is not partially typed; *could-not-infer* after a no-change pass
whose tree is still partially typed; *inference-loop-detected* after a
changed pass whose output environment equals the environment the pass started
from; *non-convergence* when the ceiling is exhausted; or an error propagated
from an upward-propagation pass itself. -/
theorem c6_driver_outcomes (e : Expr) (env : TypeMap) :
    (∃ e0 env0 e1 env1, inferUp e0 env0 = .ok (e1, env1, false) ∧
        partiallyTyped e1 = false ∧ inferTypesWithEnv e env = .ok (e1, env1)) ∨
    (∃ e0 env0 e1 env1, inferUp e0 env0 = .ok (e1, env1, false) ∧
        partiallyTyped e1 = true ∧ inferTypesWithEnv e env = .error .couldNotInfer) ∨
    (∃ e0 env0 e1 env1, inferUp e0 env0 = .ok (e1, env1, true) ∧
        TypeMap.eqv env1 env0 = true ∧ inferTypesWithEnv e env = .error .inferenceLoop) ∨
    (inferTypesWithEnv e env = .error .maxIterations) ∨
    (∃ e0 env0 er, inferUp e0 env0 = .error er ∧
        inferTypesWithEnv e env = .error (.pass er)) :=
  fixLoop_char 1024 e env none (Or.inl rfl)

/-- C7: the unification primitives are monotone — a successful `push`,
`push_complete` or `sync` only moves the receiver (and, for `sync`, either
argument) upward in the refinement order `leTy`, so every position that held
a non-`Unknown` value before the call still holds that same non-`Unknown`
value afterwards. -/
theorem c7_primitives_monotone (a b : Ty) :
    (∀ a2 c, Ty.push a b = Except.ok (a2, c) → leTy a a2 = true) ∧
    (∀ a2 c, Ty.pushComplete a b = Except.ok (a2, c) → leTy a a2 = true) ∧
    (∀ a2 b2 c, Ty.sync a b = Except.ok (a2, b2, c) →
      leTy a a2 = true ∧ leTy b b2 = true) :=
  ⟨fun a2 c h => push_le a b a2 c h,
   fun a2 c h => pushComplete_le a b a2 c h,
   fun a2 b2 c h => sync_le a b a2 b2 c h⟩

/-- C7 (witness): the monotonicity theorem applied to the concrete calls
`Unknown.push(Int)` and `Int.sync(Unknown)`. -/
theorem c7_witness :
    leTy Ty.unknown (Ty.scalar .int) = true ∧
    leTy (Ty.scalar .int) (Ty.scalar .int) = true :=
  ⟨(c7_primitives_monotone Ty.unknown (Ty.scalar .int)).1 (Ty.scalar .int) true rfl,
   ((c7_primitives_monotone (Ty.scalar .int) Ty.unknown).2.2 (Ty.scalar .int)
     (Ty.scalar .int) true rfl).1⟩

/-- C8 (counterexample): local determination of an empty-body `Function` whose
type already carries the resolved non-`Unit` return slot `Int` does *not*
error: the slot is silently overwritten with `Unit` and no change is
reported, whereas `push_complete(Unit)` would have errored. -/
theorem c8_counterexample :
    inferLocally (.mk (.function "f" [] .nil) (.function .nil (.scalar .int))) [] =
      .ok (.mk (.function "f" [] .nil) (.function .nil .unit), [], false) := rfl

/-- C8 (amended): for every empty-body parameterless `Function` node whose
type is a `Function` type with any return slot `r`, local determination
succeeds, unconditionally assigns `Unit` to the return slot (even when `r` is
a resolved non-`Unit` type, and without reporting a change even when `r` was
`Unknown`): the source executes `*res_type = Box::new(Type::Unit)` instead of
`push_complete(Unit)`. -/
theorem c8_empty_body_overwrites_return (r : Ty) (name : String) (env : TypeMap) :
    inferLocally (.mk (.function name [] .nil) (.function .nil r)) env =
      .ok (.mk (.function name [] .nil) (.function .nil .unit), env, false) := by
  simp [inferLocally, inferLocallyList, syncParams, syncResLast, Ty.push,
    Ty.pushPairs, TyList.unknowns, TyList.length]

/-- C9: the program driver equals `mapM` of the fixpoint driver over the
top-level expressions, each run against the same seeded global environment —
so the global environment is not mutated after seeding and no binding learned
while inferring one top-level expression is visible to a later one. -/
theorem c9_program_driver_frame (exprs : List Expr) :
    inferTypes exprs =
      exprs.mapM (fun e => (inferTypesWithEnv e (seedEnv exprs)).map Prod.fst) :=
  inferAll_eq_mapM (seedEnv exprs) exprs

/-- Every successful local determination of a `Call` node reports
`changed = true`: the source sets `changed = true` unconditionally before its
only `Ok` exit. -/
theorem inferLocally_call_changed (name : String) (args : ExprList) (ty : Ty)
    (env : TypeMap) (out : Expr × TypeMap × Bool)
    (h : inferLocally (.mk (.call name args) ty) env = .ok out) : out.2.2 = true := by
  rw [inferLocally] at h
  rcases h1 : inferLocallyList args env with er | ⟨args2, env2, c⟩ <;>
    rw [h1] at h <;> dsimp only at h
  · cases h
  · rcases h2 : TypeMap.get env2 name with _ | t <;> rw [h2] at h <;>
      (try dsimp only at h)
    · cases h
    · cases t <;> (try dsimp only at h) <;> try cases h
      rename_i paramTypes returnType
      split at h
      · rcases h3 : checkArgs args2 paramTypes with er | u <;> rw [h3] at h
        · cases h
        · cases h
          rfl
      · cases h

/-- Every successful upward-propagation pass over a `Call` root reports
`changed = true`: the pass ends by running local determination on the node,
whose flag (`inferLocally_call_changed`) is folded in with `||`. -/
theorem inferUp_call_changed (name : String) (args : ExprList) (ty : Ty)
    (env : TypeMap) (out : Expr × TypeMap × Bool)
    (h : inferUp (.mk (.call name args) ty) env = .ok out) : out.2.2 = true := by
  rw [inferUp] at h
  rcases h1 : inferUpList args env with er | ⟨args2, env2, c1⟩ <;>
    rw [h1] at h <;> dsimp only at h
  · cases h
  · rcases h2 : TypeMap.get env2 name with _ | t <;> rw [h2] at h <;>
      (try dsimp only at h)
    · cases h
    · rcases h3 : Ty.push ty t with er | ⟨ty2, c2⟩ <;> rw [h3] at h <;>
        (try dsimp only at h)
      · cases h
      · rw [inferUpFinish, restoreBindings] at h
        rcases h4 : inferLocally (.mk (.call name args2) ty2) env2 with er | ⟨e3, env3, cL⟩ <;>
          rw [h4] at h
        · cases h
        · have hcl : cL = true :=
            inferLocally_call_changed name args2 ty2 env2 (e3, env3, cL) h4
          cases h
          simp [hcl]

/-- If every upward-propagation pass that the fixpoint loop executes on a
given input succeeds and reports a change, the loop can terminate only with
the *inference-loop-detected* error or the iteration-ceiling error: both the
success exit and the *could-not-infer* exit require a no-change pass, and no
pass error can be propagated. -/
theorem fixLoop_all_changed (fuel : Nat) (e : Expr) (env : TypeMap)
    (prev : Option TypeMap) (hprev : prev = none ∨ prev = some env)
    (H : ∀ e0 env0, (e0, env0) ∈ runStates fuel e env prev →
      ∃ e1 env1, inferUp e0 env0 = .ok (e1, env1, true)) :
    fixLoop fuel e env prev = .error .inferenceLoop ∨
      fixLoop fuel e env prev = .error .maxIterations := by
  induction fuel generalizing e env prev with
  | zero =>
    right
    rfl
  | succ n ih =>
    obtain ⟨e1, env1, hup⟩ :=
      H e env (by rw [runStates]; exact List.mem_cons_self _ _)
    rcases hprev with rfl | rfl
    · have hstates : runStates (n + 1) e env none =
          (e, env) :: runStates n e1 env1 (some env1) := by
        simp [runStates, hup]
      have heq : fixLoop (n + 1) e env none = fixLoop n e1 env1 (some env1) := by
        simp [fixLoop, hup]
      rw [heq]
      refine ih e1 env1 (some env1) (Or.inr rfl) fun e0 env0 hmem => ?_
      exact H e0 env0 (by rw [hstates]; exact List.mem_cons_of_mem _ hmem)
    · by_cases hl : TypeMap.eqv env1 env = true
      · left
        simp [fixLoop, hup, hl]
      · have hstates : runStates (n + 1) e env (some env) =
            (e, env) :: runStates n e1 env1 (some env1) := by
          simp [runStates, hup, hl]
        have heq : fixLoop (n + 1) e env (some env) = fixLoop n e1 env1 (some env1) := by
          simp [fixLoop, hup, hl]
        rw [heq]
        refine ih e1 env1 (some env1) (Or.inr rfl) fun e0 env0 hmem => ?_
        exact H e0 env0 (by rw [hstates]; exact List.mem_cons_of_mem _ hmem)

/-- C10: (i) every successful local determination of a `Call` node reports
`changed = true`, whatever the node's previous type was (the source sets
`changed = true` unconditionally before its only `Ok` exit); (ii) hence every
successful upward-propagation pass over a `Call` root reports a change; (iii)
for every tree and environment whose run's executed passes (its `runStates`)
all succeed with a change — as happens when every pass reaches a successful
`Call` — the fixpoint driver can terminate only with the
*inference-loop-detected* or the non-convergence error, never through its
no-change success or *could-not-infer* exits; (iv) concretely, on the program
`Function f() {} ; f()` — where every pass reaches a successful call —
inference terminates with the *inference-loop-detected* error. -/
theorem c10_call_always_changes :
    (∀ (name : String) (args : ExprList) (ty : Ty) (env : TypeMap)
        (out : Expr × TypeMap × Bool),
      inferLocally (.mk (.call name args) ty) env = .ok out → out.2.2 = true) ∧
    (∀ (name : String) (args : ExprList) (ty : Ty) (env : TypeMap)
        (out : Expr × TypeMap × Bool),
      inferUp (.mk (.call name args) ty) env = .ok out → out.2.2 = true) ∧
    (∀ (e : Expr) (env : TypeMap),
      (∀ e0 env0, (e0, env0) ∈ runStates 1024 e env none →
        ∃ e1 env1, inferUp e0 env0 = .ok (e1, env1, true)) →
      inferTypesWithEnv e env = .error .inferenceLoop ∨
        inferTypesWithEnv e env = .error .maxIterations) ∧
    inferTypes [.mk (.function "f" [] .nil) (.function .nil .unknown),
        .mk (.call "f" .nil) .unknown] = .error .inferenceLoop :=
  ⟨inferLocally_call_changed, inferUp_call_changed,
   fun e env H => fixLoop_all_changed 1024 e env none (Or.inl rfl) H, rfl⟩

/-- C10 (witness): the theorem applied to the concrete call `f()` against
`{f : Function([], Unknown)}` (whose local determination and whole pass both
report a change, the latter on the call `g()` against
`{g : Function([], Unit)}`), and to the concrete run on that call, every one
of whose two executed passes succeeds with a change, so the driver ends in
*inference-loop-detected* or non-convergence. -/
theorem c10_witness :
    ((Expr.mk (.call "f" .nil) Ty.unknown,
      ([("f", Ty.function .nil .unknown)] : TypeMap), true) : Expr × TypeMap × Bool).2.2 =
        true ∧
    ((Expr.mk (.call "g" .nil) Ty.unit,
      ([("g", Ty.function .nil .unit)] : TypeMap), true) : Expr × TypeMap × Bool).2.2 =
        true ∧
    (inferTypesWithEnv (.mk (.call "f" .nil) .unknown) [("f", Ty.function .nil .unknown)] =
        .error .inferenceLoop ∨
      inferTypesWithEnv (.mk (.call "f" .nil) .unknown) [("f", Ty.function .nil .unknown)] =
        .error .maxIterations) :=
  ⟨c10_call_always_changes.1 "f" .nil Ty.unknown [("f", Ty.function .nil .unknown)]
      (.mk (.call "f" .nil) Ty.unknown, [("f", Ty.function .nil .unknown)], true) rfl,
   c10_call_always_changes.2.1 "g" .nil Ty.unknown [("g", Ty.function .nil .unit)]
      (.mk (.call "g" .nil) Ty.unit, [("g", Ty.function .nil .unit)], true) rfl,
   c10_call_always_changes.2.2.1 (.mk (.call "f" .nil) .unknown)
     [("f", Ty.function .nil .unknown)]
     (fun e0 env0 hmem => by
       have hs : runStates 1024 (Expr.mk (.call "f" .nil) Ty.unknown)
           [("f", Ty.function .nil .unknown)] none =
           [(Expr.mk (.call "f" .nil) Ty.unknown,
             [("f", Ty.function .nil .unknown)]),
            (Expr.mk (.call "f" .nil) Ty.unknown,
             [("f", Ty.function .nil .unknown)])] := rfl
       rw [hs] at hmem
       simp at hmem
       obtain ⟨rfl, rfl⟩ := hmem
       exact ⟨Expr.mk (.call "f" .nil) Ty.unknown,
         [("f", Ty.function .nil .unknown)], rfl⟩)⟩

end FirstLang
